import Mathlib

set_option maxRecDepth 8000

/-!
Verification of the mortgage amortization engine of the inmuebles backend
(`app/services/mortgage_calculator.py`).

The Python code is shallowly embedded: calendar dates become the `SDate`
structure with Python's lexicographic ordering, `pandas.Period(_, freq="M")`
becomes the month index `monthIdx`, floats become exact rationals `ℚ`, and
the two `while` loops become fuel-indexed structural recursions whose fuel
is exactly the quantity the source loop counts down
(`months_remaining = (end_month - current_month).n + 1` for the schedule
loop).  Fallible results (`{"error": ...}` dictionaries) become `Except`.
-/

/-- A calendar date `(year, month, day)` as used by `datetime.date`. -/
structure SDate where
  year : ℕ
  month : ℕ
  day : ℕ
deriving DecidableEq, Repr

/-- `pandas.Period(d, freq="M")`: the absolute month index of a date. -/
def monthIdx (d : SDate) : ℕ := d.year * 12 + (d.month - 1)

/-- Python `date` comparison (`<=`), lexicographic on (year, month, day);
for calendar dates (1 ≤ month ≤ 12) this coincides with lexicographic
comparison of `(monthIdx, day)`, which is the form used throughout. -/
def dateLE (a b : SDate) : Prop :=
  monthIdx a < monthIdx b ∨ (monthIdx a = monthIdx b ∧ a.day ≤ b.day)

/-- Python `date` comparison (`<`). -/
def dateLT (a b : SDate) : Prop :=
  monthIdx a < monthIdx b ∨ (monthIdx a = monthIdx b ∧ a.day < b.day)

instance (a b : SDate) : Decidable (dateLE a b) := by unfold dateLE; infer_instance

instance (a b : SDate) : Decidable (dateLT a b) := by unfold dateLT; infer_instance

/-- `Period.to_timestamp().date()`: the first calendar day of month `m`. -/
def periodStartDate (m : ℕ) : SDate := ⟨m / 12, m % 12 + 1, 1⟩

/-- The `MortgageDetails` model (`app/models.py`), restricted to the fields
the calculator reads.  `mortgage_type` is the literal string tag
("Variable" or "Fija"). -/
structure MortgageDetails where
  mortgage_type : String
  initial_amount : ℚ
  outstanding_balance : ℚ
  margin_percentage : ℚ
  start_date : SDate
  end_date : SDate
  review_period_months : ℤ
deriving DecidableEq, Repr

/-- The `MortgageRevision` model: `euribor_rate` is `Optional[float]`,
`margin_rate` is a plain float. -/
structure MortgageRevision where
  effective_date : SDate
  euribor_rate : Option ℚ
  margin_rate : ℚ
  period_months : ℤ
deriving DecidableEq, Repr

/-- The `MortgagePrepayment` model. -/
structure MortgagePrepayment where
  payment_date : SDate
  amount : ℚ
deriving DecidableEq, Repr

/-- One row of the generated amortization schedule.  `month` stores the
month index of the row's `pd.Period` (the emitted timestamp is its first
day, `periodStartDate month`). -/
structure ScheduleEntry where
  month : ℕ
  payment : ℚ
  interest : ℚ
  principal : ℚ
  balance : ℚ
  annual_rate : ℚ
  prepayment : ℚ
deriving DecidableEq, Repr

/-- `MortgageCalculator.calculate_monthly_payment`: standard annuity
payment.  `principal * r / (1 - (1 + r) ** (-n))` uses the integer zpow
on `ℚ`. -/
def calculate_monthly_payment (principal monthly_rate : ℚ) (num_payments : ℤ) : ℚ :=
  if num_payments ≤ 0 then principal
  else if monthly_rate ≤ 0 then principal / num_payments
  else principal * monthly_rate / (1 - (1 + monthly_rate) ^ (-num_payments))

/-- The grouping `prepayments_by_month` with its `.get(month, 0.0)`
default: the summed amount of the prepayments falling in month `m`. -/
def prepayments_by_month (prepayments : List MortgagePrepayment) (m : ℕ) : ℚ :=
  ((prepayments.filter (fun p => monthIdx p.payment_date == m)).map
    (fun p => p.amount)).sum

/-- Stable insertion of a revision into an already sorted revision list:
the inserted element passes over strictly earlier keys and lands before
every key that is `≥` its own, which is Python's stable-sort placement for
an element originating earlier in the input. -/
def insertRevision (r : MortgageRevision) : List MortgageRevision → List MortgageRevision
  | [] => [r]
  | x :: xs =>
    if dateLT x.effective_date r.effective_date then x :: insertRevision r xs
    else r :: x :: xs

/-- `sorted(revisions, key=lambda x: x.effective_date)` (a stable sort by
effective date), realized as stable insertion sort. -/
def sortRevisions : List MortgageRevision → List MortgageRevision
  | [] => []
  | r :: rs => insertRevision r (sortRevisions rs)

/-- The inner `while` of the schedule loop (advance `revision_index`
while the next revision's `effective_date <= month_date`), structurally
recursive on a fuel; the loop takes at most `revs.length - idx` steps, so
any fuel with `revs.length ≤ idx + fuel + 1` runs it to completion. -/
def advanceRevisionIndexAux (revs : List MortgageRevision) (month_date : SDate) :
    ℕ → ℕ → ℕ
  | 0, idx => idx
  | fuel + 1, idx =>
    match revs.get? (idx + 1) with
    | some r =>
      if dateLE r.effective_date month_date then
        advanceRevisionIndexAux revs month_date fuel (idx + 1)
      else idx
    | none => idx

/-- The inner `while` loop with its always-sufficient fuel. -/
def advanceRevisionIndex (revs : List MortgageRevision) (month_date : SDate) (idx : ℕ) : ℕ :=
  advanceRevisionIndexAux revs month_date (revs.length - idx) idx

/-- Python's two-argument `max` on numbers (`max(a, b)` returns `b`
exactly when `b > a`), written directly so that concrete schedules
evaluate by kernel reduction; it agrees with the mathematical maximum. -/
def pymax (a b : ℚ) : ℚ := if b > a then b else a

/-- The numeric quantities produced by one month of the schedule loop. -/
structure StepAmounts where
  payment : ℚ
  interest : ℚ
  principal : ℚ
  balance : ℚ
  prepayment : ℚ
deriving DecidableEq, Repr

/-- The arithmetic core of one loop iteration (source lines 78-102): the
payment/interest/principal split with the principal cap, followed by the
capped application of this month's summed prepayment `pre0`. -/
def step_amounts (balance monthly_rate : ℚ) (months_remaining : ℤ) (pre0 : ℚ) :
    StepAmounts :=
  let mp0 := calculate_monthly_payment balance monthly_rate months_remaining
  let interest_payment := balance * monthly_rate
  let pp0 := pymax 0 (mp0 - interest_payment)
  let principal_payment := if pp0 > balance then balance else pp0
  let monthly_payment := if pp0 > balance then interest_payment + balance else mp0
  let balance1 := pymax 0 (balance - principal_payment)
  let prepayment_amount := if pre0 > 0 then (if pre0 > balance1 then balance1 else pre0) else pre0
  let balance2 := if pre0 > 0 then balance1 - prepayment_amount else balance1
  let principal2 := if pre0 > 0 then principal_payment + prepayment_amount else principal_payment
  let payment2 := if pre0 > 0 then monthly_payment + prepayment_amount else monthly_payment
  { payment := payment2, interest := interest_payment, principal := principal2,
    balance := balance2, prepayment := prepayment_amount }

/-- The body of one iteration of the schedule loop (source lines 54-113):
given `months_remaining` and the running `balance`, compute this month's
schedule entry and the advanced revision cursor.  The source indexes
`revisions_sorted[revision_index]` only under `if revisions_sorted:`, where
the cursor invariant keeps the index in range; `List.get?` with the
`none` fallback realizes exactly the reachable behavior. -/
def schedule_step (mortgage : MortgageDetails) (revs : List MortgageRevision)
    (pf : ℕ → ℚ) (months_remaining : ℕ) (balance : ℚ)
    (current_month revision_index : ℕ) : ScheduleEntry × ℕ :=
  let month_date := periodStartDate current_month
  let new_index :=
    if mortgage.mortgage_type = "Fija" then revision_index
    else advanceRevisionIndex revs month_date revision_index
  -- `euribor_rate or 0.0` is `Option.getD _ 0`; `margin_rate or 0.0`
  -- is the identity on numeric values.
  let annual_rate :=
    if mortgage.mortgage_type = "Fija" then mortgage.margin_percentage
    else
      match revs.get? new_index with
      | some r => r.euribor_rate.getD 0 + r.margin_rate
      | none => mortgage.margin_percentage
  let a := step_amounts balance (annual_rate / 100 / 12) (months_remaining : ℤ)
    (pf current_month)
  ({ month := current_month, payment := a.payment, interest := a.interest,
     principal := a.principal, balance := a.balance, annual_rate := annual_rate,
     prepayment := a.prepayment }, new_index)

/-- The schedule loop (`while current_month <= end_month and
balance > 0.01`), with `fuel = months_remaining`: `fuel = 0` is
`current_month > end_month`. -/
def schedule_loop (mortgage : MortgageDetails) (revs : List MortgageRevision)
    (pf : ℕ → ℚ) : ℕ → ℚ → ℕ → ℕ → List ScheduleEntry
  | 0, _, _, _ => []
  | fuel + 1, balance, current_month, revision_index =>
    if balance > 1/100 then
      let s := schedule_step mortgage revs pf (fuel + 1) balance current_month revision_index
      s.1 :: schedule_loop mortgage revs pf fuel s.1.balance (current_month + 1) s.2
    else []

/-- `MortgageCalculator.generate_amortization_schedule`.  The ambient
clock (`date.today()`) is passed explicitly as `today`; this function's
source never reads it, so the parameter is unused here (it is used by
`calculate_current_payment_and_balance`). -/
def generate_amortization_schedule (today : SDate) (mortgage : MortgageDetails)
    (revisions : List MortgageRevision) (prepayments : List MortgagePrepayment) :
    List ScheduleEntry :=
  if mortgage.initial_amount ≤ 0 then []
  else
    let revisions_sorted := sortRevisions revisions
    let start_month := monthIdx mortgage.start_date
    let end_month := monthIdx mortgage.end_date
    schedule_loop mortgage revisions_sorted (prepayments_by_month prepayments)
      (end_month + 1 - start_month) mortgage.initial_amount start_month 0

/-- Result of `calculate_current_payment_and_balance`; the empty-schedule
branch returns a dictionary without an `annual_rate` key, modelled by
`none`. -/
structure CurrentStatus where
  current_payment : ℚ
  current_balance : ℚ
  annual_rate : Option ℚ
  as_of_date : SDate
deriving DecidableEq, Repr

/-- `MortgageCalculator.calculate_current_payment_and_balance`: `as_of_date`
defaults to `date.today()` (the explicit `today` parameter); it selects the
last schedule entry whose month does not exceed the target month, falling
back to the first entry. -/
def calculate_current_payment_and_balance (today : SDate) (mortgage : MortgageDetails)
    (revisions : List MortgageRevision) (prepayments : List MortgagePrepayment)
    (as_of_date : Option SDate) : CurrentStatus :=
  let as_of := as_of_date.getD today
  let schedule := generate_amortization_schedule today mortgage revisions prepayments
  match schedule with
  | [] =>
    { current_payment := 0, current_balance := mortgage.outstanding_balance,
      annual_rate := none, as_of_date := as_of }
  | e0 :: _ =>
    let target_period := monthIdx as_of
    let current_entry :=
      match (schedule.takeWhile (fun e => e.month ≤ target_period)).getLast? with
      | some e => e
      | none => e0
    { current_payment := current_entry.payment, current_balance := current_entry.balance,
      annual_rate := some current_entry.annual_rate, as_of_date := as_of }

/-- Result of `calculate_mortgage_summary`; the empty-schedule branch
returns a dictionary without an `annual_rate` key, modelled by `none`. -/
structure MortgageSummary where
  total_payments : ℚ
  total_interest : ℚ
  total_principal : ℚ
  total_prepayments : ℚ
  loan_term_months : ℕ
  current_payment : ℚ
  current_balance : ℚ
  annual_rate : Option ℚ
deriving DecidableEq, Repr

/-- `MortgageCalculator.calculate_mortgage_summary`.  On an empty schedule
the source returns `total_principal = mortgage.initial_amount` (not 0) and
`current_balance = mortgage.outstanding_balance`; otherwise it sums the
schedule columns and merges `calculate_current_payment_and_balance`
(called without `as_of_date`, hence on the ambient `today`), reading its
`annual_rate` with default 0. -/
def calculate_mortgage_summary (today : SDate) (mortgage : MortgageDetails)
    (revisions : List MortgageRevision) (prepayments : List MortgagePrepayment) :
    MortgageSummary :=
  let schedule := generate_amortization_schedule today mortgage revisions prepayments
  if schedule = [] then
    { total_payments := 0, total_interest := 0, total_principal := mortgage.initial_amount,
      total_prepayments := 0, loan_term_months := 0, current_payment := 0,
      current_balance := mortgage.outstanding_balance, annual_rate := none }
  else
    let current_status :=
      calculate_current_payment_and_balance today mortgage revisions prepayments none
    { total_payments := (schedule.map (fun e => e.payment)).sum,
      total_interest := (schedule.map (fun e => e.interest)).sum,
      total_principal := (schedule.map (fun e => e.principal)).sum,
      total_prepayments := (schedule.map (fun e => e.prepayment)).sum,
      loan_term_months := schedule.length,
      current_payment := current_status.current_payment,
      current_balance := current_status.current_balance,
      annual_rate := some (current_status.annual_rate.getD 0) }

/-- Gregorian leap-year test (as `calendar`/`dateutil` use it). -/
def isLeapYear (y : ℕ) : Bool :=
  (y % 4 == 0 && y % 100 != 0) || y % 400 == 0

/-- Number of days in month `m` of year `y`. -/
def daysInMonth (y m : ℕ) : ℕ :=
  if m = 2 then (if isLeapYear y then 29 else 28)
  else if m = 4 ∨ m = 6 ∨ m = 9 ∨ m = 11 then 30
  else 31

/-- `d + relativedelta(months=+p)`: calendar month addition with the day
clamped to the target month's length. -/
def addMonths (d : SDate) (p : ℕ) : SDate :=
  let t := (d.month - 1) + p
  let y := d.year + t / 12
  let m := t % 12 + 1
  ⟨y, m, min d.day (daysInMonth y m)⟩

/-- The `while current_date <= end_date` loop of
`generate_revision_calendar`, fuel-indexed; each iteration advances the
month index by `p ≥ 1`, so `monthIdx end + 1 - monthIdx start` iterations
always suffice. -/
def revCalAux (end_date : SDate) (p : ℕ) : ℕ → SDate → List SDate
  | 0, _ => []
  | fuel + 1, current_date =>
    if dateLE current_date end_date then
      current_date :: revCalAux end_date p fuel (addMonths current_date p)
    else []

/-- `MortgageCalculator.generate_revision_calendar`.  The source returns
ISO strings; since `isoformat` is injective the dates themselves are
returned here.  For `period_months <= 0` the source returns `[]` (it does
not raise). -/
def generate_revision_calendar (start_date end_date : SDate) (period_months : ℤ)
    (margin_percentage : ℚ) : List SDate :=
  if period_months ≤ 0 then []
  else revCalAux end_date period_months.toNat
    (monthIdx end_date + 1 - monthIdx start_date) start_date

/-- Result of `calculate_prepayment_impact` in the non-error case. -/
structure PrepaymentImpact where
  prepayment_amount : ℚ
  interest_savings : ℚ
  time_savings_months : ℤ
  original_term_months : ℕ
  new_term_months : ℕ
  original_total_interest : ℚ
  new_total_interest : ℚ
deriving DecidableEq, Repr

/-- `MortgageCalculator.calculate_prepayment_impact`: builds the candidate
prepayment, concatenates it onto the existing list (Python `+`, which
allocates a fresh list), generates both schedules, and compares totals;
returns the `{"error": ...}` dictionary as `Except.error` when either
schedule is empty. -/
def calculate_prepayment_impact (today : SDate) (mortgage : MortgageDetails)
    (revisions : List MortgageRevision) (existing_prepayments : List MortgagePrepayment)
    (new_prepayment_amount : ℚ) (new_prepayment_date : SDate) :
    Except String PrepaymentImpact :=
  let original_schedule :=
    generate_amortization_schedule today mortgage revisions existing_prepayments
  let new_prepayment : MortgagePrepayment :=
    { payment_date := new_prepayment_date, amount := new_prepayment_amount }
  let all_prepayments := existing_prepayments ++ [new_prepayment]
  let new_schedule :=
    generate_amortization_schedule today mortgage revisions all_prepayments
  if original_schedule = [] ∨ new_schedule = [] then
    Except.error "Could not calculate prepayment impact"
  else
    let original_total_interest := (original_schedule.map (fun e => e.interest)).sum
    let new_total_interest := (new_schedule.map (fun e => e.interest)).sum
    Except.ok
      { prepayment_amount := new_prepayment_amount,
        interest_savings := original_total_interest - new_total_interest,
        time_savings_months := (original_schedule.length : ℤ) - new_schedule.length,
        original_term_months := original_schedule.length,
        new_term_months := new_schedule.length,
        original_total_interest := original_total_interest,
        new_total_interest := new_total_interest }

/-- A heap of Python list objects holding prepayment records, addressed by
reference; used to make the (absence of) in-place mutation in
`calculate_prepayment_impact` observable. -/
abbrev PrepayHeap := List (List MortgagePrepayment)

/-- `calculate_prepayment_impact` with the caller's prepayment list held in
an explicit heap cell `existingRef`.  Each Python step is translated on the
heap: reading `existing_prepayments` dereferences the cell, and
`existing_prepayments + [new_prepayment]` *allocates a fresh cell* for
`all_prepayments` (list `+` copies; nothing is appended in place).  Returns
the final heap together with the result. -/
def calculate_prepayment_impact_heap (heap : PrepayHeap) (today : SDate)
    (mortgage : MortgageDetails) (revisions : List MortgageRevision) (existingRef : ℕ)
    (new_prepayment_amount : ℚ) (new_prepayment_date : SDate) :
    PrepayHeap × Except String PrepaymentImpact :=
  let existing_prepayments := (heap.get? existingRef).getD []
  let original_schedule :=
    generate_amortization_schedule today mortgage revisions existing_prepayments
  let new_prepayment : MortgagePrepayment :=
    { payment_date := new_prepayment_date, amount := new_prepayment_amount }
  let heap2 := heap ++ [existing_prepayments ++ [new_prepayment]]
  let all_prepayments := (heap2.get? heap.length).getD []
  let new_schedule :=
    generate_amortization_schedule today mortgage revisions all_prepayments
  if original_schedule = [] ∨ new_schedule = [] then
    (heap2, Except.error "Could not calculate prepayment impact")
  else
    let original_total_interest := (original_schedule.map (fun e => e.interest)).sum
    let new_total_interest := (new_schedule.map (fun e => e.interest)).sum
    (heap2, Except.ok
      { prepayment_amount := new_prepayment_amount,
        interest_savings := original_total_interest - new_total_interest,
        time_savings_months := (original_schedule.length : ℤ) - new_schedule.length,
        original_term_months := original_schedule.length,
        new_term_months := new_schedule.length,
        original_total_interest := original_total_interest,
        new_total_interest := new_total_interest })

/-- The number of revisions whose `effective_date` is `≤ d`, minus one:
for a date-sorted revision list this is the index of the latest applicable
revision (and `0` when none is applicable yet). -/
def targetIdx (revs : List MortgageRevision) (d : SDate) : ℕ :=
  revs.countP (fun r => decide (dateLE r.effective_date d)) - 1

/-- The annual rate the schedule applies at date `d` for a revision list,
stated the way the (amended) specification reads: the rate of the latest
revision whose `effective_date ≤ d`, and, strictly before the first
revision's `effective_date`, the rate of the *first* revision; `none` for
an empty revision list. -/
def latestOrFirstRate (revs : List MortgageRevision) (d : SDate) : Option ℚ :=
  match (revs.filter (fun r => decide (dateLE r.effective_date d))).getLast? with
  | some r => some (r.euribor_rate.getD 0 + r.margin_rate)
  | none => revs.head?.map (fun r => r.euribor_rate.getD 0 + r.margin_rate)

/-- The balance after a (partial) schedule: the last entry's balance, or
the starting balance if no entry was produced. -/
def lastBal : List ScheduleEntry → ℚ → ℚ
  | [], b => b
  | e :: rest, _ => lastBal rest e.balance

/-- Iterated `relativedelta` month addition: `k` successive additions of
`p` months (the revision-calendar loop applies it cumulatively, so the
day-of-month clamp compounds). -/
def addMonthsIter (s : SDate) (p : ℕ) : ℕ → SDate
  | 0 => s
  | k + 1 => addMonthsIter (addMonths s p) p k

/-- A fixed ambient-clock value used by the concrete test inputs. -/
def todayD : SDate := ⟨2024, 6, 15⟩

/-- Concrete input: fixed-type loan at rate 0 over Jan-Feb 2020. -/
def loanFixZero : MortgageDetails :=
  ⟨"Fija", 100, 100, 0, ⟨2020, 1, 1⟩, ⟨2020, 2, 1⟩, 12⟩

/-- Concrete input: variable-type loan, margin 1.2, over Jan-Feb 2020. -/
def loanVar : MortgageDetails :=
  ⟨"Variable", 1000, 1000, 12/10, ⟨2020, 1, 1⟩, ⟨2020, 2, 1⟩, 12⟩

/-- Concrete input: a revision effective 2020-02-01 with benchmark 2.0 and
margin 1.0. -/
def revFeb : MortgageRevision := ⟨⟨2020, 2, 1⟩, some 2, 1, 12⟩

/-- Concrete input: `end_date < start_date` inside one calendar month. -/
def loanSameMonth : MortgageDetails :=
  ⟨"Fija", 1200, 1200, 0, ⟨2020, 1, 20⟩, ⟨2020, 1, 5⟩, 12⟩

/-- Concrete input: `end_date` a full month before `start_date`. -/
def loanBadDates : MortgageDetails :=
  ⟨"Fija", 1000, 500, 0, ⟨2020, 2, 1⟩, ⟨2020, 1, 1⟩, 12⟩

/-- Concrete input: a stored prepayment of 5 in January 2020. -/
def prepJan : MortgagePrepayment := ⟨⟨2020, 1, 15⟩, 5⟩

/-! ### Order lemmas for dates, months, and the period start date -/

theorem dateLE_refl (a : SDate) : dateLE a a := by
  unfold dateLE; omega

theorem dateLE_trans {a b c : SDate} (h1 : dateLE a b) (h2 : dateLE b c) : dateLE a c := by
  unfold dateLE at h1 h2 ⊢; omega

theorem dateLE_of_dateLT {a b : SDate} (h : dateLT a b) : dateLE a b := by
  unfold dateLT at h; unfold dateLE; omega

theorem dateLE_iff_not_dateLT {a b : SDate} : dateLE a b ↔ ¬ dateLT b a := by
  unfold dateLT dateLE; omega

theorem dateLT_of_dateLT_of_dateLE {a b c : SDate} (h1 : dateLT a b) (h2 : dateLE b c) :
    dateLT a c := by
  unfold dateLT at h1 ⊢; unfold dateLE at h2; omega

theorem monthIdx_le_of_dateLE {a b : SDate} (h : dateLE a b) : monthIdx a ≤ monthIdx b := by
  unfold dateLE at h; omega

theorem monthIdx_periodStartDate (m : ℕ) : monthIdx (periodStartDate m) = m := by
  simp only [monthIdx, periodStartDate]; omega

theorem periodStartDate_mono {m n : ℕ} (h : m ≤ n) :
    dateLE (periodStartDate m) (periodStartDate n) := by
  unfold dateLE
  rw [monthIdx_periodStartDate, monthIdx_periodStartDate]
  simp only [periodStartDate]
  omega

/-! ### Arithmetic facts about the annuity payment -/

/-- With at least one payment remaining and a positive balance, the
computed monthly payment covers the interest accrued in the month. -/
theorem interest_le_monthly_payment (b r : ℚ) (n : ℤ) (hb : 0 < b) (hn : 1 ≤ n) :
    b * r ≤ calculate_monthly_payment b r n := by
  unfold calculate_monthly_payment
  rw [if_neg (by omega)]
  by_cases hr : r ≤ 0
  · rw [if_pos hr]
    have hbr : b * r ≤ 0 := mul_nonpos_iff.mpr (Or.inl ⟨hb.le, hr⟩)
    have hn' : (1 : ℚ) ≤ (n : ℚ) := by exact_mod_cast hn
    have : (0 : ℚ) ≤ b / (n : ℚ) := div_nonneg hb.le (by linarith)
    linarith
  · rw [if_neg hr]
    push_neg at hr
    obtain ⟨m, hm⟩ : ∃ m : ℕ, n = (m : ℤ) + 1 := ⟨(n - 1).toNat, by omega⟩
    subst hm
    have hx : (1 : ℚ) < 1 + r := by linarith
    have hy : (1 : ℚ) < (1 + r) ^ (m + 1) := one_lt_pow₀ hx (Nat.succ_ne_zero m)
    have hy0 : (0 : ℚ) < (1 + r) ^ (m + 1) := by positivity
    have hzpow : (1 + r) ^ (-((m : ℤ) + 1)) = ((1 + r) ^ (m + 1))⁻¹ := by
      rw [show -((m : ℤ) + 1) = -(((m + 1 : ℕ) : ℤ)) by push_cast; ring]
      rw [zpow_neg, zpow_natCast]
    rw [hzpow]
    have hinv1 : ((1 + r) ^ (m + 1))⁻¹ < 1 := by
      rw [inv_lt_one_iff₀]
      right; exact hy
    have hinv0 : (0 : ℚ) < ((1 + r) ^ (m + 1))⁻¹ := by positivity
    have hd : (0 : ℚ) < 1 - ((1 + r) ^ (m + 1))⁻¹ := by linarith
    rw [le_div_iff₀ hd]
    have hbr : (0 : ℚ) < b * r := mul_pos hb hr
    nlinarith

/-- In the final scheduled month (`months_remaining = 1`) the annuity
payment equals balance plus interest, so the regular amortization clears
the balance exactly. -/
theorem monthly_payment_last (b r : ℚ) (hb : 0 < b) (hr : ¬ r ≤ 0) :
    calculate_monthly_payment b r 1 = b * (1 + r) := by
  unfold calculate_monthly_payment
  rw [if_neg (by omega), if_neg hr]
  push_neg at hr
  have hx : (0 : ℚ) < 1 + r := by linarith
  have hzpow : (1 + r) ^ (-(1 : ℤ)) = (1 + r)⁻¹ := by
    rw [zpow_neg, zpow_one]
  rw [hzpow]
  have hne : (1 + r) ≠ 0 := ne_of_gt hx
  have hdenom : 1 - (1 + r)⁻¹ = r / (1 + r) := by
    field_simp
  rw [hdenom]
  have hrne : r ≠ 0 := ne_of_gt hr
  field_simp
  ring

/-! ### Facts about `pymax` -/

theorem pymax_eq_right {a b : ℚ} (h : a ≤ b) : pymax a b = b := by
  unfold pymax; split_ifs <;> linarith

theorem pymax_eq_left {a b : ℚ} (h : b ≤ a) : pymax a b = a := by
  unfold pymax; split_ifs <;> linarith

theorem le_pymax_left (a b : ℚ) : a ≤ pymax a b := by
  unfold pymax; split_ifs <;> linarith

theorem le_pymax_right (a b : ℚ) : b ≤ pymax a b := by
  unfold pymax; split_ifs <;> linarith

/-! ### Facts about one loop iteration's arithmetic -/

/-- Each emitted row satisfies `payment = interest + principal` exactly:
in the uncapped branch the principal is defined as their difference (the
`max` is inert because the payment covers the interest), in the capped
branch the payment is redefined as their sum, and a prepayment is added to
payment and principal simultaneously. -/
theorem step_amounts_payment_split (b mr : ℚ) (n : ℤ) (pre : ℚ) (hb : 0 < b) (hn : 1 ≤ n) :
    (step_amounts b mr n pre).payment =
      (step_amounts b mr n pre).interest + (step_amounts b mr n pre).principal := by
  have hple : b * mr ≤ calculate_monthly_payment b mr n :=
    interest_le_monthly_payment b mr n hb hn
  simp only [step_amounts]
  have hmax : pymax 0 (calculate_monthly_payment b mr n - b * mr) =
      calculate_monthly_payment b mr n - b * mr := pymax_eq_right (by linarith)
  rw [hmax]
  split_ifs <;> ring

/-- The post-iteration balance lies between `0` and the pre-iteration
balance: regular amortization and the (capped) prepayment only reduce it,
and neither can push it below zero. -/
theorem step_amounts_balance_bounds (b mr : ℚ) (n : ℤ) (pre : ℚ) (hb : 0 < b) :
    0 ≤ (step_amounts b mr n pre).balance ∧ (step_amounts b mr n pre).balance ≤ b := by
  simp only [step_amounts]
  have hpp0 : (0 : ℚ) ≤ pymax 0 (calculate_monthly_payment b mr n - b * mr) :=
    le_pymax_left _ _
  set pp0 := pymax 0 (calculate_monthly_payment b mr n - b * mr) with hpp0def
  by_cases hcap : pp0 > b
  · simp only [if_pos hcap, sub_self]
    rw [pymax_eq_left (le_refl (0 : ℚ))]
    split_ifs with hpre hbig <;> constructor <;> linarith
  · simp only [if_neg hcap]
    push_neg at hcap
    have hb1 : pymax 0 (b - pp0) = b - pp0 := pymax_eq_right (by linarith)
    rw [hb1]
    split_ifs with hpre hbig
    · constructor <;> linarith
    · constructor <;> linarith
    · constructor <;> linarith

/-- With no prepayment this month, the new balance is exactly the old
balance minus the emitted principal. -/
theorem step_amounts_no_prepay (b mr : ℚ) (n : ℤ) (hb : 0 < b) :
    (step_amounts b mr n 0).balance = b - (step_amounts b mr n 0).principal := by
  simp only [step_amounts]
  have hpp0 : (0 : ℚ) ≤ pymax 0 (calculate_monthly_payment b mr n - b * mr) :=
    le_pymax_left _ _
  set pp0 := pymax 0 (calculate_monthly_payment b mr n - b * mr) with hpp0def
  have hzero : ¬ ((0 : ℚ) > 0) := by norm_num
  by_cases hcap : pp0 > b
  · simp only [if_pos hcap, if_neg hzero, sub_self]
    rw [pymax_eq_left (le_refl (0 : ℚ))]
  · simp only [if_neg hcap, if_neg hzero]
    push_neg at hcap
    exact pymax_eq_right (by linarith)

/-- In the final scheduled month (`months_remaining = 1`, no prepayment)
the iteration clears the balance exactly. -/
theorem step_amounts_last_month (b mr : ℚ) (hb : 0 < b) :
    (step_amounts b mr 1 0).balance = 0 := by
  simp only [step_amounts]
  have hzero : ¬ ((0 : ℚ) > 0) := by norm_num
  by_cases hr : mr ≤ 0
  · have hmp : calculate_monthly_payment b mr 1 = b := by
      unfold calculate_monthly_payment
      rw [if_neg (by omega), if_pos hr]
      norm_num
    rw [hmp]
    have hpp0 : pymax 0 (b - b * mr) = b - b * mr := by
      apply pymax_eq_right
      nlinarith
    rw [hpp0]
    by_cases hcap : b - b * mr > b
    · simp only [if_pos hcap, if_neg hzero, sub_self]
      rw [pymax_eq_left (le_refl (0 : ℚ))]
    · simp only [if_neg hcap, if_neg hzero]
      have hmr0 : b * mr = 0 := by nlinarith
      have hz : b - (b - b * mr) = 0 := by rw [hmr0]; ring
      rw [hz]
      rw [pymax_eq_left (le_refl (0 : ℚ))]
  · have hmp : calculate_monthly_payment b mr 1 = b * (1 + mr) :=
      monthly_payment_last b mr hb hr
    rw [hmp]
    have hpp0 : pymax 0 (b * (1 + mr) - b * mr) = b := by
      rw [show b * (1 + mr) - b * mr = b by ring]
      exact pymax_eq_right hb.le
    rw [hpp0]
    have hcap : ¬ (b > b) := lt_irrefl b
    simp only [if_neg hcap, if_neg hzero, sub_self]
    rw [pymax_eq_left (le_refl (0 : ℚ))]

/-! ### Lifting the iteration facts to `schedule_step` -/

theorem schedule_step_month (m : MortgageDetails) (revs : List MortgageRevision)
    (pf : ℕ → ℚ) (n : ℕ) (b : ℚ) (cur idx : ℕ) :
    (schedule_step m revs pf n b cur idx).1.month = cur := by
  simp [schedule_step]

theorem schedule_step_payment_split (m : MortgageDetails) (revs : List MortgageRevision)
    (pf : ℕ → ℚ) (n : ℕ) (b : ℚ) (cur idx : ℕ) (hb : 0 < b) (hn : 1 ≤ n) :
    (schedule_step m revs pf n b cur idx).1.payment =
      (schedule_step m revs pf n b cur idx).1.interest +
        (schedule_step m revs pf n b cur idx).1.principal := by
  simp only [schedule_step]
  exact step_amounts_payment_split _ _ _ _ hb (by exact_mod_cast hn)

theorem schedule_step_balance_bounds (m : MortgageDetails) (revs : List MortgageRevision)
    (pf : ℕ → ℚ) (n : ℕ) (b : ℚ) (cur idx : ℕ) (hb : 0 < b) :
    0 ≤ (schedule_step m revs pf n b cur idx).1.balance ∧
      (schedule_step m revs pf n b cur idx).1.balance ≤ b := by
  simp only [schedule_step]
  exact step_amounts_balance_bounds _ _ _ _ hb

theorem schedule_step_no_prepay (m : MortgageDetails) (revs : List MortgageRevision)
    (pf : ℕ → ℚ) (n : ℕ) (b : ℚ) (cur idx : ℕ) (hb : 0 < b) (hpf : pf cur = 0) :
    (schedule_step m revs pf n b cur idx).1.balance =
      b - (schedule_step m revs pf n b cur idx).1.principal := by
  simp only [schedule_step, hpf]
  exact step_amounts_no_prepay _ _ _ hb

theorem schedule_step_last_month (m : MortgageDetails) (revs : List MortgageRevision)
    (pf : ℕ → ℚ) (b : ℚ) (cur idx : ℕ) (hb : 0 < b) (hpf : pf cur = 0) :
    (schedule_step m revs pf 1 b cur idx).1.balance = 0 := by
  simp only [schedule_step, hpf, Nat.cast_one]
  exact step_amounts_last_month _ _ hb

theorem schedule_step_pf_congr (m : MortgageDetails) (revs : List MortgageRevision)
    (pf1 pf2 : ℕ → ℚ) (n : ℕ) (b : ℚ) (cur idx : ℕ) (h : pf1 cur = pf2 cur) :
    schedule_step m revs pf1 n b cur idx = schedule_step m revs pf2 n b cur idx := by
  simp only [schedule_step, h]

/-! ### Loop-level invariants -/

/-- Every entry of any schedule satisfies the exact payment identity and a
non-negative balance. -/
theorem schedule_loop_entry_facts (m : MortgageDetails) (revs : List MortgageRevision)
    (pf : ℕ → ℚ) :
    ∀ fuel b cur idx, ∀ e ∈ schedule_loop m revs pf fuel b cur idx,
      e.payment = e.interest + e.principal ∧ 0 ≤ e.balance := by
  intro fuel
  induction fuel with
  | zero => intro b cur idx e he; simp [schedule_loop] at he
  | succ f ih =>
    intro b cur idx e he
    simp only [schedule_loop] at he
    by_cases hb : b > 1/100
    · rw [if_pos hb] at he
      rcases List.mem_cons.mp he with h1 | h2
      · subst h1
        have hb0 : (0 : ℚ) < b := by linarith
        refine ⟨schedule_step_payment_split m revs pf (f+1) b cur idx hb0 (by omega), ?_⟩
        exact (schedule_step_balance_bounds m revs pf (f+1) b cur idx hb0).1
      · exact ih _ _ _ e h2
    · rw [if_neg hb] at he
      simp at he

/-- If the loop emits a first entry, that entry's balance is at most the
starting balance. -/
theorem schedule_loop_head_le (m : MortgageDetails) (revs : List MortgageRevision)
    (pf : ℕ → ℚ) :
    ∀ fuel b cur idx e, (schedule_loop m revs pf fuel b cur idx).head? = some e →
      e.balance ≤ b := by
  intro fuel b cur idx e he
  cases fuel with
  | zero => simp [schedule_loop] at he
  | succ f =>
    simp only [schedule_loop] at he
    by_cases hb : b > 1/100
    · rw [if_pos hb] at he
      simp only [List.head?_cons, Option.some.injEq] at he
      subst he
      exact (schedule_step_balance_bounds m revs pf (f+1) b cur idx (by linarith)).2
    · rw [if_neg hb] at he
      simp at he

/-- The balance column is non-increasing along any schedule. -/
theorem schedule_loop_chain (m : MortgageDetails) (revs : List MortgageRevision)
    (pf : ℕ → ℚ) :
    ∀ fuel b cur idx,
      List.Chain' (fun a b' => b'.balance ≤ a.balance)
        (schedule_loop m revs pf fuel b cur idx) := by
  intro fuel
  induction fuel with
  | zero => intro b cur idx; simp [schedule_loop]
  | succ f ih =>
    intro b cur idx
    simp only [schedule_loop]
    by_cases hb : b > 1/100
    · rw [if_pos hb]
      refine List.chain'_cons'.mpr ⟨?_, ih _ _ _⟩
      intro y hy
      exact schedule_loop_head_le m revs pf f _ _ _ y hy
    · rw [if_neg hb]
      simp

/-! ### Payoff lemmas (no prepayments) -/

/-- With a vanishing prepayment function the principal column telescopes:
its sum is the starting balance minus the balance left after the loop. -/
theorem schedule_loop_sum_principal (m : MortgageDetails) (revs : List MortgageRevision)
    (pf : ℕ → ℚ) (hpf : ∀ mth, pf mth = 0) :
    ∀ fuel b cur idx,
      ((schedule_loop m revs pf fuel b cur idx).map (fun e => e.principal)).sum =
        b - lastBal (schedule_loop m revs pf fuel b cur idx) b := by
  intro fuel
  induction fuel with
  | zero => intro b cur idx; simp [schedule_loop, lastBal]
  | succ f ih =>
    intro b cur idx
    simp only [schedule_loop]
    by_cases hb : b > 1/100
    · rw [if_pos hb]
      simp only [List.map_cons, List.sum_cons, lastBal]
      rw [ih]
      have hstep := schedule_step_no_prepay m revs pf (f+1) b cur idx (by linarith) (hpf cur)
      rw [hstep]
      ring
    · rw [if_neg hb]
      simp [lastBal]

/-- A partial-schedule tail that still has months and a balance above the
stopping tolerance ends with a balance at or below the tolerance: the loop
either hits the `balance <= 0.01` stop or reaches the final month, whose
payment clears the balance entirely. -/
theorem schedule_loop_lastBal_small (m : MortgageDetails) (revs : List MortgageRevision)
    (pf : ℕ → ℚ) (hpf : ∀ mth, pf mth = 0) :
    ∀ fuel b cur idx, 0 < fuel → 1/100 < b →
      lastBal (schedule_loop m revs pf fuel b cur idx) b ≤ 1/100 := by
  intro fuel
  induction fuel with
  | zero => intro b cur idx h0; omega
  | succ f ih =>
    intro b cur idx _ hb
    simp only [schedule_loop, if_pos hb]
    simp only [lastBal]
    cases f with
    | zero =>
      have hlast := schedule_step_last_month m revs pf b cur idx (by linarith) (hpf cur)
      simp only [schedule_loop, lastBal, hlast]
      norm_num
    | succ f2 =>
      by_cases hb2 : (schedule_step m revs pf (f2+1+1) b cur idx).1.balance > 1/100
      · exact ih _ _ _ (Nat.succ_pos f2) hb2
      · simp only [schedule_loop, if_neg hb2, lastBal]
        linarith

/-- `lastBal` is the balance of the last entry when one exists. -/
theorem lastBal_getLast : ∀ (s : List ScheduleEntry) (b : ℚ) (e : ScheduleEntry),
    s.getLast? = some e → lastBal s b = e.balance := by
  intro s
  induction s with
  | nil => intro b e he; simp at he
  | cons x t ih =>
    intro b e he
    cases t with
    | nil =>
      simp only [List.getLast?_singleton, Option.some.injEq] at he
      subst he
      simp [lastBal]
    | cons y t2 =>
      rw [List.getLast?_cons_cons] at he
      simp only [lastBal]
      exact ih x.balance _ he

/-- `lastBal` stays non-negative when all entry balances and the default
are. -/
theorem lastBal_nonneg : ∀ (s : List ScheduleEntry) (b : ℚ),
    (∀ e ∈ s, 0 ≤ e.balance) → 0 ≤ b → 0 ≤ lastBal s b := by
  intro s
  induction s with
  | nil => intro b _ hb; simpa [lastBal] using hb
  | cons x t ih =>
    intro b hall hb
    simp only [lastBal]
    exact ih _ (fun e he => hall e (List.mem_cons_of_mem x he)) (hall x (List.mem_cons_self x t))

/-! ### The schedule only reads prepayments inside its month window -/

theorem schedule_loop_pf_congr (m : MortgageDetails) (revs : List MortgageRevision)
    (pf1 pf2 : ℕ → ℚ) :
    ∀ fuel b cur idx, (∀ mth, cur ≤ mth → mth < cur + fuel → pf1 mth = pf2 mth) →
      schedule_loop m revs pf1 fuel b cur idx = schedule_loop m revs pf2 fuel b cur idx := by
  intro fuel
  induction fuel with
  | zero => intro b cur idx _; simp [schedule_loop]
  | succ f ih =>
    intro b cur idx hagree
    simp only [schedule_loop]
    by_cases hb : b > 1/100
    · rw [if_pos hb, if_pos hb]
      have hstep : schedule_step m revs pf1 (f+1) b cur idx =
          schedule_step m revs pf2 (f+1) b cur idx :=
        schedule_step_pf_congr m revs pf1 pf2 (f+1) b cur idx
          (hagree cur (le_refl cur) (by omega))
      rw [hstep, ih _ _ _ (fun mth h1 h2 => hagree mth (by omega) (by omega))]
    · rw [if_neg hb, if_neg hb]

/-- A list contains the entry its `head?` returns. -/
theorem mem_of_head_eq {l : List ScheduleEntry} {e : ScheduleEntry}
    (h : l.head? = some e) : e ∈ l := by
  cases l with
  | nil => simp at h
  | cons x t =>
    simp only [List.head?_cons, Option.some.injEq] at h
    exact h ▸ List.mem_cons_self x t

/-! ### Claim theorems -/

/-- C2: for every loan with positive `initial_amount`, `start_date <=
end_date`, and no prepayments, the principal column of the full schedule
sums to `initial_amount` within 0.01, and the final entry's balance (when
an entry exists) is at most 0.01. -/
theorem C2_payoff_invariant (today : SDate) (m : MortgageDetails)
    (revs : List MortgageRevision) (h1 : 0 < m.initial_amount)
    (h2 : dateLE m.start_date m.end_date) :
    |((generate_amortization_schedule today m revs []).map (fun e => e.principal)).sum
        - m.initial_amount| ≤ 1/100 ∧
    ∀ e, (generate_amortization_schedule today m revs []).getLast? = some e →
      e.balance ≤ 1/100 := by
  have hpf : ∀ mth, prepayments_by_month [] mth = 0 := fun _ => rfl
  have hfuel : 1 ≤ monthIdx m.end_date + 1 - monthIdx m.start_date := by
    have := monthIdx_le_of_dateLE h2
    omega
  simp only [generate_amortization_schedule]
  rw [if_neg (not_le.mpr h1)]
  obtain ⟨f, hf⟩ : ∃ f, monthIdx m.end_date + 1 - monthIdx m.start_date = f + 1 :=
    ⟨monthIdx m.end_date - monthIdx m.start_date, by omega⟩
  rw [hf]
  by_cases hsmall : m.initial_amount ≤ 1/100
  · simp only [schedule_loop, if_neg (not_lt.mpr hsmall)]
    constructor
    · simp only [List.map_nil, List.sum_nil, zero_sub, abs_neg, abs_of_pos h1]
      exact hsmall
    · intro e he
      simp at he
  · push_neg at hsmall
    have hsum := schedule_loop_sum_principal m (sortRevisions revs)
      (prepayments_by_month []) hpf (f + 1) m.initial_amount (monthIdx m.start_date) 0
    have hlast := schedule_loop_lastBal_small m (sortRevisions revs)
      (prepayments_by_month []) hpf (f + 1) m.initial_amount (monthIdx m.start_date) 0
      (Nat.succ_pos f) hsmall
    have hnn : 0 ≤ lastBal
        (schedule_loop m (sortRevisions revs) (prepayments_by_month []) (f + 1)
          m.initial_amount (monthIdx m.start_date) 0) m.initial_amount := by
      apply lastBal_nonneg
      · intro e he
        exact (schedule_loop_entry_facts m (sortRevisions revs) (prepayments_by_month [])
          (f + 1) m.initial_amount (monthIdx m.start_date) 0 e he).2
      · linarith
    constructor
    · rw [hsum]
      rw [abs_le]
      constructor <;> linarith
    · intro e he
      have := lastBal_getLast _ m.initial_amount e he
      linarith [this ▸ hlast]

/-- C2 witness: the zero-rate two-month loan pays off exactly. -/
theorem C2_payoff_invariant_witness :
    ((0 : ℚ) < loanFixZero.initial_amount ∧ dateLE loanFixZero.start_date loanFixZero.end_date) ∧
    (|((generate_amortization_schedule todayD loanFixZero [] []).map
        (fun e => e.principal)).sum - loanFixZero.initial_amount| ≤ 1/100 ∧
      ∀ e, (generate_amortization_schedule todayD loanFixZero [] []).getLast? = some e →
        e.balance ≤ 1/100) :=
  ⟨⟨by with_unfolding_all decide, by decide⟩,
    C2_payoff_invariant todayD loanFixZero [] (by with_unfolding_all decide) (by decide)⟩

/-- C6: the balance column of any generated schedule is non-increasing,
and the first entry's balance does not exceed the starting principal (so
no month's combined regular-plus-prepayment reduction exceeds the balance
at the start of that month). -/
theorem C6_monotonic_balance (today : SDate) (m : MortgageDetails)
    (revs : List MortgageRevision) (preps : List MortgagePrepayment) :
    List.Chain' (fun a b => b.balance ≤ a.balance)
      (generate_amortization_schedule today m revs preps) ∧
    ∀ e, (generate_amortization_schedule today m revs preps).head? = some e →
      e.balance ≤ m.initial_amount := by
  simp only [generate_amortization_schedule]
  split_ifs with h0
  · exact ⟨List.chain'_nil, by intro e he; simp at he⟩
  · push_neg at h0
    constructor
    · exact schedule_loop_chain m (sortRevisions revs) (prepayments_by_month preps) _ _ _ _
    · intro e he
      exact schedule_loop_head_le m (sortRevisions revs) (prepayments_by_month preps)
        _ _ _ _ e he

/-- C6 witness: the invariant instantiated at the concrete zero-rate loan
and the concrete first entry of its schedule. -/
theorem C6_monotonic_balance_witness :
    List.Chain' (fun a b => b.balance ≤ a.balance)
      (generate_amortization_schedule todayD loanFixZero [] []) ∧
    ((⟨24240, 50, 0, 50, 50, 0, 0⟩ : ScheduleEntry)).balance ≤
      loanFixZero.initial_amount :=
  ⟨(C6_monotonic_balance todayD loanFixZero [] []).1,
    (C6_monotonic_balance todayD loanFixZero [] []).2
      ⟨24240, 50, 0, 50, 50, 0, 0⟩ (by with_unfolding_all rfl)⟩

/-- C9: the schedule generator is deterministic and clock-independent:
its result does not depend on the ambient `today` value (the only ambient
state available to it), so two calls on identical loan/revision/prepayment
inputs always return the identical sequence. -/
theorem C9_deterministic (t1 t2 : SDate) (m : MortgageDetails)
    (revs : List MortgageRevision) (preps : List MortgagePrepayment) :
    generate_amortization_schedule t1 m revs preps =
      generate_amortization_schedule t2 m revs preps := rfl

/-- C10: every schedule entry satisfies `payment = interest + principal`
exactly, and carries a non-negative balance. -/
theorem C10_entry_identity (today : SDate) (m : MortgageDetails)
    (revs : List MortgageRevision) (preps : List MortgagePrepayment) :
    ∀ e ∈ generate_amortization_schedule today m revs preps,
      e.payment = e.interest + e.principal ∧ 0 ≤ e.balance := by
  intro e he
  simp only [generate_amortization_schedule] at he
  split_ifs at he with h0
  · simp at he
  · exact schedule_loop_entry_facts m (sortRevisions revs) (prepayments_by_month preps)
      _ _ _ _ e he

/-- C10 witness: the identity at the concrete first entry of the zero-rate
loan's schedule. -/
theorem C10_entry_identity_witness :
    ((⟨24240, 50, 0, 50, 50, 0, 0⟩ : ScheduleEntry)).payment =
      ((⟨24240, 50, 0, 50, 50, 0, 0⟩ : ScheduleEntry)).interest +
        ((⟨24240, 50, 0, 50, 50, 0, 0⟩ : ScheduleEntry)).principal ∧
    (0 : ℚ) ≤ ((⟨24240, 50, 0, 50, 50, 0, 0⟩ : ScheduleEntry)).balance :=
  C10_entry_identity todayD loanFixZero [] []
    ⟨24240, 50, 0, 50, 50, 0, 0⟩ (mem_of_head_eq (by with_unfolding_all rfl))

/-- C4 counterexample: a loan whose `end_date` precedes its `start_date`
by a full month has an empty schedule, yet `calculate_mortgage_summary`
reports `total_principal = initial_amount = 1000 ≠ 0`, refuting "all
totals are zero on an empty schedule". -/
theorem C4_counterexample :
    generate_amortization_schedule todayD loanBadDates [] [] = [] ∧
    (calculate_mortgage_summary todayD loanBadDates [] []).total_principal = 1000 ∧
    (1000 : ℚ) ≠ 0 := by
  refine ⟨by with_unfolding_all rfl, by with_unfolding_all rfl, by norm_num⟩

/-- C4 amended: whenever the generated schedule is empty, the summary has
zero total payments, interest and prepayments, a zero current payment,
`total_principal` equal to `loan.initial_amount` (which is `0` in the
`initial_amount = 0` scenario), and `current_balance` defaulting to
`loan.outstanding_balance` (with no `annual_rate` key). -/
theorem C4_empty_summary (today : SDate) (m : MortgageDetails)
    (revs : List MortgageRevision) (preps : List MortgagePrepayment)
    (h : generate_amortization_schedule today m revs preps = []) :
    calculate_mortgage_summary today m revs preps =
      ⟨0, 0, m.initial_amount, 0, 0, 0, m.outstanding_balance, none⟩ := by
  simp only [calculate_mortgage_summary, h, if_true]

/-- C4 witness: the amended summary at the concrete bad-dates loan. -/
theorem C4_empty_summary_witness :
    calculate_mortgage_summary todayD loanBadDates [] [] =
      ⟨0, 0, loanBadDates.initial_amount, 0, 0, 0, loanBadDates.outstanding_balance, none⟩ :=
  C4_empty_summary todayD loanBadDates [] [] (by with_unfolding_all rfl)

/-- C8 counterexample: with `end_date < start_date` falling inside the
same calendar month (here 2020-01-05 < 2020-01-20), the generator still
emits a one-entry schedule because the loop compares month periods, not
dates — refuting "empty sequence whenever `end_date < start_date`". -/
theorem C8_counterexample :
    dateLT loanSameMonth.end_date loanSameMonth.start_date ∧
    0 < loanSameMonth.initial_amount ∧
    (generate_amortization_schedule todayD loanSameMonth [] []).length = 1 := by
  refine ⟨by decide, by with_unfolding_all decide, by with_unfolding_all rfl⟩

/-- C8 amended: the generator raises no error (it is a total function) and
returns the empty sequence exactly when `initial_amount ≤ 0.01` (which
subsumes `initial_amount ≤ 0`) or `end_date`'s calendar month strictly
precedes `start_date`'s; an `end_date < start_date` within one month
still produces a schedule. -/
theorem C8_empty_iff (today : SDate) (m : MortgageDetails)
    (revs : List MortgageRevision) (preps : List MortgagePrepayment) :
    generate_amortization_schedule today m revs preps = [] ↔
      (m.initial_amount ≤ 1/100 ∨ monthIdx m.end_date < monthIdx m.start_date) := by
  simp only [generate_amortization_schedule]
  by_cases h0 : m.initial_amount ≤ 0
  · rw [if_pos h0]
    simp only [eq_self_iff_true, true_iff]
    left
    linarith
  · rw [if_neg h0]
    push_neg at h0
    by_cases hm : monthIdx m.end_date < monthIdx m.start_date
    · have hfuel : monthIdx m.end_date + 1 - monthIdx m.start_date = 0 := by omega
      rw [hfuel]
      simp only [schedule_loop, eq_self_iff_true, true_iff]
      right
      exact hm
    · obtain ⟨f, hf⟩ : ∃ f, monthIdx m.end_date + 1 - monthIdx m.start_date = f + 1 :=
        ⟨monthIdx m.end_date - monthIdx m.start_date, by omega⟩
      rw [hf]
      simp only [schedule_loop]
      by_cases hb : m.initial_amount > 1/100
      · rw [if_pos hb]
        constructor
        · intro hcons; exact absurd hcons (List.cons_ne_nil _ _)
        · intro hor
          rcases hor with h1 | h2
          · linarith
          · exact absurd h2 hm
      · rw [if_neg hb]
        push_neg at hb
        simp only [eq_self_iff_true, true_iff]
        left
        exact hb

/-! ### Prepayments outside the schedule window are never read -/

theorem prepayments_by_month_append_single (preps : List MortgagePrepayment)
    (c : MortgagePrepayment) (mth : ℕ) :
    prepayments_by_month (preps ++ [c]) mth =
      prepayments_by_month preps mth +
        (if monthIdx c.payment_date == mth then c.amount else 0) := by
  unfold prepayments_by_month
  rw [List.filter_append, List.map_append, List.sum_append]
  congr 1
  by_cases hc : (monthIdx c.payment_date == mth)
  · simp [List.filter, hc]
  · simp [List.filter, hc]

/-- Appending a prepayment dated in a month after the loan's final month
leaves the generated schedule unchanged: the loop reads the prepayment
map only at months up to `end_date`'s month. -/
theorem generate_prepay_out_of_window (today : SDate) (m : MortgageDetails)
    (revs : List MortgageRevision) (preps : List MortgagePrepayment)
    (c : MortgagePrepayment) (hd : monthIdx m.end_date < monthIdx c.payment_date) :
    generate_amortization_schedule today m revs (preps ++ [c]) =
      generate_amortization_schedule today m revs preps := by
  simp only [generate_amortization_schedule]
  by_cases h0 : m.initial_amount ≤ 0
  · rw [if_pos h0, if_pos h0]
  · rw [if_neg h0, if_neg h0]
    apply schedule_loop_pf_congr
    intro mth h1 h2
    have hmth : mth ≤ monthIdx m.end_date := by omega
    rw [prepayments_by_month_append_single]
    have hne : (monthIdx c.payment_date == mth) = false := by
      rw [beq_eq_false_iff_ne]
      omega
    rw [hne]
    simp

/-- C3 counterexample: a prepayment-impact request dated after
`loan.end_date` returns a normal `ok` impact result, not an error. -/
theorem C3_counterexample :
    dateLT loanFixZero.end_date (⟨2021, 5, 1⟩ : SDate) ∧
    (calculate_prepayment_impact todayD loanFixZero [] [] 50 ⟨2021, 5, 1⟩).isOk = true := by
  refine ⟨by decide, by with_unfolding_all rfl⟩

/-- C3 amended: a prepayment-impact request whose `candidate_date` falls
in a month strictly after `loan.end_date`'s month returns a normal impact
result with zero interest savings and zero months saved (the candidate
prepayment lies outside the schedule window and is never applied); the
error value arises only when a generated schedule is empty. -/
theorem C3_out_of_window_impact (today : SDate) (m : MortgageDetails)
    (revs : List MortgageRevision) (existing : List MortgagePrepayment)
    (amount : ℚ) (pdate : SDate)
    (hd : monthIdx m.end_date < monthIdx pdate)
    (hs : generate_amortization_schedule today m revs existing ≠ []) :
    calculate_prepayment_impact today m revs existing amount pdate =
      Except.ok
        ⟨amount, 0, 0,
          (generate_amortization_schedule today m revs existing).length,
          (generate_amortization_schedule today m revs existing).length,
          ((generate_amortization_schedule today m revs existing).map (fun e => e.interest)).sum,
          ((generate_amortization_schedule today m revs existing).map (fun e => e.interest)).sum⟩ := by
  have hnew : generate_amortization_schedule today m revs
      (existing ++ [{ payment_date := pdate, amount := amount }]) =
        generate_amortization_schedule today m revs existing :=
    generate_prepay_out_of_window today m revs existing _ hd
  simp only [calculate_prepayment_impact, hnew]
  rw [if_neg (by simp [hs])]
  simp

/-- C3 witness: the amended statement at a concrete loan and a candidate
date one year past maturity. -/
theorem C3_out_of_window_impact_witness :
    calculate_prepayment_impact todayD loanFixZero [] [] 50 ⟨2021, 5, 1⟩ =
      Except.ok
        ⟨50, 0, 0,
          (generate_amortization_schedule todayD loanFixZero [] []).length,
          (generate_amortization_schedule todayD loanFixZero [] []).length,
          ((generate_amortization_schedule todayD loanFixZero [] []).map (fun e => e.interest)).sum,
          ((generate_amortization_schedule todayD loanFixZero [] []).map (fun e => e.interest)).sum⟩ :=
  C3_out_of_window_impact todayD loanFixZero [] [] 50 ⟨2021, 5, 1⟩ (by decide)
    (by with_unfolding_all decide)

/-! ### Revision calendar lemmas -/

theorem monthIdx_addMonths (d : SDate) (p : ℕ) :
    monthIdx (addMonths d p) = monthIdx d + p := by
  simp only [monthIdx, addMonths]
  omega

theorem addMonthsIter_succ (s : SDate) (p k : ℕ) :
    addMonthsIter s p (k + 1) = addMonthsIter (addMonths s p) p k := rfl

theorem monthIdx_addMonthsIter (p : ℕ) :
    ∀ (k : ℕ) (s : SDate), monthIdx (addMonthsIter s p k) = monthIdx s + k * p := by
  intro k
  induction k with
  | zero => intro s; simp [addMonthsIter]
  | succ n ih =>
    intro s
    rw [addMonthsIter_succ, ih, monthIdx_addMonths]
    ring

theorem dateLT_addMonths (d : SDate) (p : ℕ) (hp : 1 ≤ p) :
    dateLT d (addMonths d p) := by
  unfold dateLT
  left
  rw [monthIdx_addMonths]
  omega

/-- Membership characterization of the fuel-indexed calendar loop: with
adequate fuel it emits exactly the cumulative month-iterates that do not
exceed the end date. -/
theorem revCalAux_mem (end_date : SDate) (p : ℕ) (hp : 1 ≤ p) :
    ∀ (fuel : ℕ) (cur : SDate), monthIdx end_date + 1 - monthIdx cur ≤ fuel →
      ∀ d, d ∈ revCalAux end_date p fuel cur ↔
        ∃ k, d = addMonthsIter cur p k ∧ dateLE d end_date := by
  intro fuel
  induction fuel with
  | zero =>
    intro cur henough d
    simp only [revCalAux, List.not_mem_nil, false_iff]
    rintro ⟨k, rfl, hle⟩
    have h1 := monthIdx_addMonthsIter p k cur
    have h2 := monthIdx_le_of_dateLE hle
    omega
  | succ f ih =>
    intro cur henough d
    simp only [revCalAux]
    by_cases hcur : dateLE cur end_date
    · rw [if_pos hcur]
      constructor
      · intro hmem
        rcases List.mem_cons.mp hmem with h1 | h2
        · exact ⟨0, h1, h1 ▸ hcur⟩
        · have henough2 : monthIdx end_date + 1 - monthIdx (addMonths cur p) ≤ f := by
            rw [monthIdx_addMonths]
            omega
          obtain ⟨k, hk, hle⟩ := (ih (addMonths cur p) henough2 d).mp h2
          exact ⟨k + 1, by rw [addMonthsIter_succ]; exact hk, hle⟩
      · rintro ⟨k, rfl, hle⟩
        cases k with
        | zero => exact List.mem_cons_self _ _
        | succ n =>
          apply List.mem_cons_of_mem
          have henough2 : monthIdx end_date + 1 - monthIdx (addMonths cur p) ≤ f := by
            rw [monthIdx_addMonths]
            omega
          rw [addMonthsIter_succ]
          exact (ih (addMonths cur p) henough2 _).mpr ⟨n, rfl, by rw [← addMonthsIter_succ]; exact hle⟩
    · rw [if_neg hcur]
      simp only [List.not_mem_nil, false_iff]
      rintro ⟨k, rfl, hle⟩
      have h1 := monthIdx_addMonthsIter p k cur
      have h2 := monthIdx_le_of_dateLE hle
      have hge : monthIdx end_date ≤ monthIdx cur := by
        unfold dateLE at hcur
        omega
      cases k with
      | zero => exact hcur (by simpa [addMonthsIter] using hle)
      | succ n =>
        have hppos : 0 < (n + 1) * p := Nat.mul_pos (Nat.succ_pos n) (by omega)
        omega

theorem revCalAux_ge (end_date : SDate) (p : ℕ) (hp : 1 ≤ p) :
    ∀ (fuel : ℕ) (cur : SDate), ∀ d ∈ revCalAux end_date p fuel cur, dateLE cur d := by
  intro fuel
  induction fuel with
  | zero => intro cur d hd; simp [revCalAux] at hd
  | succ f ih =>
    intro cur d hd
    simp only [revCalAux] at hd
    by_cases hcur : dateLE cur end_date
    · rw [if_pos hcur] at hd
      rcases List.mem_cons.mp hd with h1 | h2
      · exact h1 ▸ dateLE_refl cur
      · exact dateLE_trans (dateLE_of_dateLT (dateLT_addMonths cur p hp)) (ih _ d h2)
    · rw [if_neg hcur] at hd
      simp at hd

theorem revCalAux_pairwise (end_date : SDate) (p : ℕ) (hp : 1 ≤ p) :
    ∀ (fuel : ℕ) (cur : SDate), List.Pairwise dateLT (revCalAux end_date p fuel cur) := by
  intro fuel
  induction fuel with
  | zero => intro cur; simp [revCalAux]
  | succ f ih =>
    intro cur
    simp only [revCalAux]
    by_cases hcur : dateLE cur end_date
    · rw [if_pos hcur]
      refine List.Pairwise.cons ?_ (ih _)
      intro d hd
      exact dateLT_of_dateLT_of_dateLE (dateLT_addMonths cur p hp)
        (revCalAux_ge end_date p hp f _ d hd)
    · rw [if_neg hcur]
      exact List.Pairwise.nil

/-- C5 counterexample: `generate_revision_calendar` with
`period_months = 0` returns an ordinary empty list, not an error; and for
a day-31 start with monthly cadence the emitted dates are the *cumulative*
clamped additions (Jan 31, Feb 29, Mar 29), so `start + 2 months`
(Mar 31), although within range, is not emitted. -/
theorem C5_counterexample :
    generate_revision_calendar ⟨2020, 1, 1⟩ ⟨2022, 1, 1⟩ 0 (5/2) = [] ∧
    generate_revision_calendar ⟨2020, 1, 31⟩ ⟨2020, 3, 31⟩ 1 0 =
      [⟨2020, 1, 31⟩, ⟨2020, 2, 29⟩, ⟨2020, 3, 29⟩] ∧
    addMonths ⟨2020, 1, 31⟩ 2 = ⟨2020, 3, 31⟩ ∧
    dateLE ⟨2020, 3, 31⟩ ⟨2020, 3, 31⟩ ∧
    (⟨2020, 3, 31⟩ : SDate) ∉ generate_revision_calendar ⟨2020, 1, 31⟩ ⟨2020, 3, 31⟩ 1 0 := by
  refine ⟨by with_unfolding_all rfl, by with_unfolding_all rfl, by decide, by decide, by decide⟩

/-- C5 amended: for `period_months ≤ 0` the calendar is the empty list
(no error is raised); for `period_months > 0` it contains exactly the
cumulative `relativedelta` month-iterates of `start_date` that do not
exceed `end_date` (with the day-of-month clamped at each step), listed in
strictly increasing order. -/
theorem C5_calendar_characterization (s e : SDate) (p : ℤ) (mg : ℚ) :
    (p ≤ 0 → generate_revision_calendar s e p mg = []) ∧
    (0 < p → ∀ d, d ∈ generate_revision_calendar s e p mg ↔
        ∃ k, d = addMonthsIter s p.toNat k ∧ dateLE d e) ∧
    List.Pairwise dateLT (generate_revision_calendar s e p mg) := by
  refine ⟨?_, ?_, ?_⟩
  · intro hp
    simp only [generate_revision_calendar, if_pos hp]
  · intro hp d
    have hp1 : 1 ≤ p.toNat := by omega
    simp only [generate_revision_calendar, if_neg (not_le.mpr hp)]
    exact revCalAux_mem e p.toNat hp1 _ s (le_refl _) d
  · by_cases hp : p ≤ 0
    · simp only [generate_revision_calendar, if_pos hp]
      exact List.Pairwise.nil
    · simp only [generate_revision_calendar, if_neg hp]
      exact revCalAux_pairwise e p.toNat (by omega) _ s

/-- C5 witness: the spec's own example calendar contains 2021-01-01 as
the first 12-month iterate. -/
theorem C5_calendar_characterization_witness :
    (⟨2021, 1, 1⟩ : SDate) ∈ generate_revision_calendar ⟨2020, 1, 1⟩ ⟨2022, 1, 1⟩ 12 0 :=
  ((C5_calendar_characterization ⟨2020, 1, 1⟩ ⟨2022, 1, 1⟩ 12 0).2.1 (by decide)
    ⟨2021, 1, 1⟩).mpr ⟨1, by decide, by decide⟩

/-- C7: `calculate_prepayment_impact` does not mutate the caller's stored
prepayment list: in the heap model the cell holding `existing_prepayments`
is unchanged after the call (Python list `+` allocates a fresh cell, at a
fresh reference, for the extended list), and the result is the pure
function of the unchanged cell contents. -/
theorem C7_no_mutation (heap : PrepayHeap) (today : SDate) (m : MortgageDetails)
    (revs : List MortgageRevision) (existingRef : ℕ) (amount : ℚ) (pdate : SDate)
    (h : existingRef < heap.length) :
    ((calculate_prepayment_impact_heap heap today m revs existingRef amount pdate).1).get?
        existingRef = heap.get? existingRef ∧
    (calculate_prepayment_impact_heap heap today m revs existingRef amount pdate).2 =
      calculate_prepayment_impact today m revs ((heap.get? existingRef).getD [])
        amount pdate := by
  have hcell : ((heap ++ [((heap.get? existingRef).getD []) ++
      [({ payment_date := pdate, amount := amount } : MortgagePrepayment)]]).get?
        heap.length).getD [] =
      ((heap.get? existingRef).getD []) ++
        [({ payment_date := pdate, amount := amount } : MortgagePrepayment)] := by
    rw [List.get?_concat_length]
    rfl
  constructor
  · simp only [calculate_prepayment_impact_heap]
    rw [apply_ite Prod.fst]
    simp only [ite_self]
    exact List.get?_append h
  · simp only [calculate_prepayment_impact_heap, calculate_prepayment_impact, hcell]
    rw [apply_ite Prod.snd]

/-- C7 witness: a one-cell heap holding one stored prepayment is untouched
by a prepayment-impact call on the zero-rate loan. -/
theorem C7_no_mutation_witness :
    ((calculate_prepayment_impact_heap [[prepJan]] todayD loanFixZero [] 0 50
        ⟨2020, 2, 10⟩).1).get? 0 = ([[prepJan]] : PrepayHeap).get? 0 ∧
    (calculate_prepayment_impact_heap [[prepJan]] todayD loanFixZero [] 0 50
        ⟨2020, 2, 10⟩).2 =
      calculate_prepayment_impact todayD loanFixZero []
        ((([[prepJan]] : PrepayHeap).get? 0).getD []) 50 ⟨2020, 2, 10⟩ :=
  C7_no_mutation [[prepJan]] todayD loanFixZero [] 0 50 ⟨2020, 2, 10⟩ (by decide)

/-! ### The revision sort fixes already-sorted input -/

theorem insertRevision_cons_of_le {r x : MortgageRevision} {xs : List MortgageRevision}
    (h : dateLE r.effective_date x.effective_date) :
    insertRevision r (x :: xs) = r :: x :: xs := by
  unfold insertRevision
  rw [if_neg (dateLE_iff_not_dateLT.mp h)]

theorem sortRevisions_eq_self {l : List MortgageRevision}
    (hs : l.Pairwise (fun a b => dateLE a.effective_date b.effective_date)) :
    sortRevisions l = l := by
  induction l with
  | nil => rfl
  | cons r rs ih =>
    simp only [sortRevisions]
    rw [ih (List.Pairwise.sublist (List.sublist_cons_self r rs) hs)]
    cases rs with
    | nil => rfl
    | cons x xs =>
      exact insertRevision_cons_of_le (List.rel_of_pairwise_cons hs (List.mem_cons_self x xs))

/-! ### The revision cursor tracks the latest applicable revision -/

/-- On a date-sorted revision list, position `j` holds an applicable
revision (effective date `≤ d`) exactly when `j` is below the count of
applicable revisions. -/
theorem sorted_countP_lt_iff {revs : List MortgageRevision}
    (hs : revs.Pairwise (fun a b => dateLE a.effective_date b.effective_date)) (d : SDate) :
    ∀ j (hj : j < revs.length),
      (dateLE (revs.get ⟨j, hj⟩).effective_date d ↔
        j < revs.countP (fun r => decide (dateLE r.effective_date d))) := by
  induction revs with
  | nil => intro j hj; simp at hj
  | cons x xs ih =>
    intro j hj
    rw [List.pairwise_cons] at hs
    rw [List.countP_cons]
    by_cases hpx : dateLE x.effective_date d
    · rw [if_pos (by simpa using hpx)]
      cases j with
      | zero => simpa using hpx
      | succ n =>
        have hn : n < xs.length := by simpa using hj
        have hiff := ih hs.2 n hn
        simp only [List.get_cons_succ]
        constructor
        · intro h
          have := hiff.mp h
          omega
        · intro h
          exact hiff.mpr (by omega)
    · rw [if_neg (by simpa using hpx)]
      have hzero : xs.countP (fun r => decide (dateLE r.effective_date d)) = 0 := by
        rw [List.countP_eq_zero]
        intro y hy
        simp only [decide_eq_true_eq]
        intro hyd
        exact hpx (dateLE_trans (hs.1 y hy) hyd)
      cases j with
      | zero => simp [hpx, hzero]
      | succ n =>
        have hn : n < xs.length := by simpa using hj
        have hxy : dateLE x.effective_date (xs.get ⟨n, hn⟩).effective_date :=
          hs.1 _ (List.get_mem xs n hn)
        simp only [List.get_cons_succ, hzero]
        constructor
        · intro hcon
          exact absurd (dateLE_trans hxy hcon) hpx
        · omega

theorem targetIdx_lt_length {revs : List MortgageRevision} (hne : revs ≠ []) (d : SDate) :
    targetIdx revs d < revs.length := by
  unfold targetIdx
  have h1 := List.countP_le_length (p := fun r => decide (dateLE r.effective_date d)) (l := revs)
  have h2 : 0 < revs.length := List.length_pos.mpr hne
  omega

theorem targetIdx_mono {revs : List MortgageRevision} {d d' : SDate} (h : dateLE d d') :
    targetIdx revs d ≤ targetIdx revs d' := by
  unfold targetIdx
  have : revs.countP (fun r => decide (dateLE r.effective_date d)) ≤
      revs.countP (fun r => decide (dateLE r.effective_date d')) := by
    apply List.countP_mono_left
    intro r hr
    simp only [decide_eq_true_eq]
    intro hrd
    exact dateLE_trans hrd h
  omega

/-- The inner `while` loop, run with adequate fuel from any cursor at or
below the latest-applicable index, stops exactly at that index. -/
theorem advanceRevisionIndexAux_correct {revs : List MortgageRevision}
    (hs : revs.Pairwise (fun a b => dateLE a.effective_date b.effective_date)) (d : SDate) :
    ∀ (f idx : ℕ), revs.length ≤ idx + f + 1 → idx ≤ targetIdx revs d →
      advanceRevisionIndexAux revs d f idx = targetIdx revs d := by
  have hcnt := List.countP_le_length (p := fun r => decide (dateLE r.effective_date d)) (l := revs)
  intro f
  induction f with
  | zero =>
    intro idx hlen hidx
    simp only [advanceRevisionIndexAux]
    unfold targetIdx at hidx ⊢
    omega
  | succ n ih =>
    intro idx hlen hidx
    simp only [advanceRevisionIndexAux]
    rcases hget : revs.get? (idx + 1) with _ | r
    · dsimp only
      have hout : revs.length ≤ idx + 1 := List.get?_eq_none.mp hget
      unfold targetIdx at hidx ⊢
      omega
    · dsimp only
      obtain ⟨hlt, hval⟩ := List.get?_eq_some.mp hget
      by_cases happ : dateLE r.effective_date d
      · rw [if_pos happ]
        have hiff := sorted_countP_lt_iff hs d (idx + 1) hlt
        rw [hval] at hiff
        have hlt2 : idx + 1 < revs.countP (fun r => decide (dateLE r.effective_date d)) :=
          hiff.mp happ
        apply ih
        · omega
        · unfold targetIdx
          omega
      · rw [if_neg happ]
        have hiff := sorted_countP_lt_iff hs d (idx + 1) hlt
        rw [hval] at hiff
        have hge : revs.countP (fun r => decide (dateLE r.effective_date d)) ≤ idx + 1 := by
          by_contra hcon
          exact happ (hiff.mpr (by omega))
        unfold targetIdx at hidx ⊢
        omega

theorem advanceRevisionIndex_correct {revs : List MortgageRevision}
    (hs : revs.Pairwise (fun a b => dateLE a.effective_date b.effective_date)) (d : SDate)
    (idx : ℕ) (hidx : idx ≤ targetIdx revs d) :
    advanceRevisionIndex revs d idx = targetIdx revs d := by
  unfold advanceRevisionIndex
  exact advanceRevisionIndexAux_correct hs d (revs.length - idx) idx (by omega) hidx

/-- On a date-sorted revision list, the applicable revisions form a
prefix. -/
theorem sorted_filter_eq_take {revs : List MortgageRevision}
    (hs : revs.Pairwise (fun a b => dateLE a.effective_date b.effective_date)) (d : SDate) :
    revs.filter (fun r => decide (dateLE r.effective_date d)) =
      revs.take (revs.countP (fun r => decide (dateLE r.effective_date d))) := by
  induction revs with
  | nil => rfl
  | cons x xs ih =>
    rw [List.pairwise_cons] at hs
    rw [List.filter_cons, List.countP_cons]
    by_cases hpx : dateLE x.effective_date d
    · rw [if_pos (by simpa using hpx), if_pos (by simpa using hpx)]
      rw [List.take_succ_cons]
      rw [ih hs.2]
    · rw [if_neg (by simpa using hpx), if_neg (by simpa using hpx)]
      have hzero : xs.countP (fun r => decide (dateLE r.effective_date d)) = 0 := by
        rw [List.countP_eq_zero]
        intro y hy
        simp only [decide_eq_true_eq]
        intro hyd
        exact hpx (dateLE_trans (hs.1 y hy) hyd)
      have hfil : xs.filter (fun r => decide (dateLE r.effective_date d)) = [] := by
        rw [List.filter_eq_nil_iff]
        intro y hy
        simp only [decide_eq_true_eq]
        intro hyd
        exact hpx (dateLE_trans (hs.1 y hy) hyd)
      rw [hzero, hfil]
      simp

/-- For a sorted, non-empty revision list, the spec-side rate selector is
the rate found at the cursor's target index. -/
theorem latestOrFirstRate_eq {revs : List MortgageRevision}
    (hs : revs.Pairwise (fun a b => dateLE a.effective_date b.effective_date))
    (hne : revs ≠ []) (d : SDate) :
    latestOrFirstRate revs d =
      (revs.get? (targetIdx revs d)).map
        (fun r => r.euribor_rate.getD 0 + r.margin_rate) := by
  unfold latestOrFirstRate
  rw [sorted_filter_eq_take hs d]
  have hclen := List.countP_le_length (p := fun r => decide (dateLE r.effective_date d)) (l := revs)
  rcases hcnt : revs.countP (fun r => decide (dateLE r.effective_date d)) with _ | k
  · rw [hcnt]
    simp only [List.take_zero, List.getLast?_nil]
    unfold targetIdx
    rw [hcnt]
    cases revs with
    | nil => exact absurd rfl hne
    | cons x xs => simp
  · rw [hcnt]
    rw [hcnt] at hclen
    have htake_len : (revs.take (k + 1)).length = k + 1 := by
      rw [List.length_take]
      omega
    rw [List.getLast?_eq_get?, htake_len]
    simp only [Nat.add_sub_cancel]
    rw [List.get?_take (by omega : k < k + 1)]
    unfold targetIdx
    rw [hcnt]
    simp only [Nat.add_sub_cancel]
    have hk : k < revs.length := by omega
    rw [List.get?_eq_get hk]
    rfl

theorem schedule_step_rate (m : MortgageDetails) (revs : List MortgageRevision)
    (pf : ℕ → ℚ) (n : ℕ) (b : ℚ) (cur idx : ℕ) (hvar : m.mortgage_type ≠ "Fija") :
    (schedule_step m revs pf n b cur idx).2 =
      advanceRevisionIndex revs (periodStartDate cur) idx ∧
    (schedule_step m revs pf n b cur idx).1.annual_rate =
      (match revs.get? ((schedule_step m revs pf n b cur idx).2) with
        | some r => r.euribor_rate.getD 0 + r.margin_rate
        | none => m.margin_percentage) := by
  simp only [schedule_step, if_neg hvar]
  exact ⟨trivial, trivial⟩

/-- Along a Variable-rate run whose cursor starts at or below the latest
applicable index for the current month, every emitted entry's rate is the
rate of the revision at the latest-applicable index for that entry's
month (which is index 0 while no revision is applicable yet). -/
theorem schedule_loop_rate (m : MortgageDetails) (revs : List MortgageRevision)
    (pf : ℕ → ℚ) (hvar : m.mortgage_type ≠ "Fija")
    (hs : revs.Pairwise (fun a b => dateLE a.effective_date b.effective_date))
    (hne : revs ≠ []) :
    ∀ fuel b cur idx, idx ≤ targetIdx revs (periodStartDate cur) →
      ∀ e ∈ schedule_loop m revs pf fuel b cur idx,
        ∃ r, revs.get? (targetIdx revs (periodStartDate e.month)) = some r ∧
          e.annual_rate = r.euribor_rate.getD 0 + r.margin_rate := by
  intro fuel
  induction fuel with
  | zero => intro b cur idx _ e he; simp [schedule_loop] at he
  | succ f ih =>
    intro b cur idx hidx e he
    simp only [schedule_loop] at he
    by_cases hb : b > 1/100
    · rw [if_pos hb] at he
      have hadv : (schedule_step m revs pf (f+1) b cur idx).2 =
          targetIdx revs (periodStartDate cur) := by
        rw [(schedule_step_rate m revs pf (f+1) b cur idx hvar).1]
        exact advanceRevisionIndex_correct hs (periodStartDate cur) idx hidx
      rcases List.mem_cons.mp he with h1 | h2
      · subst h1
        rw [schedule_step_month]
        have htlt : targetIdx revs (periodStartDate cur) < revs.length :=
          targetIdx_lt_length hne (periodStartDate cur)
        refine ⟨revs.get ⟨targetIdx revs (periodStartDate cur), htlt⟩,
          List.get?_eq_get htlt, ?_⟩
        rw [(schedule_step_rate m revs pf (f+1) b cur idx hvar).2, hadv,
          List.get?_eq_get htlt]
      · refine ih _ (cur + 1) _ ?_ e h2
        rw [hadv]
        exact targetIdx_mono (periodStartDate_mono (Nat.le_succ cur))
    · rw [if_neg hb] at he
      simp at he

/-- C1 counterexample: a Variable loan whose single revision becomes
effective only in the schedule's second month.  The first month lies
strictly before the revision's effective date, yet the schedule applies
the revision's rate 2.0 + 1.0 = 3.0 instead of the claimed
`loan.fixed_margin` fallback of 1.2 (the cursor starts at index 0 and the
code uses `revisions_sorted[0]` whenever the list is non-empty). -/
theorem C1_counterexample :
    loanVar.mortgage_type = "Variable" ∧
    dateLT (periodStartDate (monthIdx loanVar.start_date)) revFeb.effective_date ∧
    ((generate_amortization_schedule todayD loanVar [revFeb] []).head?.map
      (fun e => e.annual_rate)) = some 3 ∧
    loanVar.margin_percentage = 12/10 ∧ (3 : ℚ) ≠ 12/10 := by
  refine ⟨rfl, by decide, by with_unfolding_all rfl, rfl, by norm_num⟩

/-- C1 amended: for a Variable loan with a non-empty, date-sorted revision
list, the annual rate applied at each month is `benchmark (default 0) +
margin` of the latest revision whose `effective_date` is at most the first
day of that month — except that for months strictly before the first
revision's `effective_date` the *first revision's* rate (not
`loan.fixed_margin`) is applied; `loan.fixed_margin` is used only when the
revision list is empty. -/
theorem C1_rate_selection (today : SDate) (m : MortgageDetails)
    (revs : List MortgageRevision) (preps : List MortgagePrepayment)
    (hvar : m.mortgage_type = "Variable")
    (hs : revs.Pairwise (fun a b => dateLE a.effective_date b.effective_date))
    (hne : revs ≠ []) :
    ∀ e ∈ generate_amortization_schedule today m revs preps,
      some e.annual_rate = latestOrFirstRate revs (periodStartDate e.month) := by
  intro e he
  have hvar2 : m.mortgage_type ≠ "Fija" := by rw [hvar]; decide
  simp only [generate_amortization_schedule] at he
  split_ifs at he with h0
  · simp at he
  · rw [sortRevisions_eq_self hs] at he
    obtain ⟨r, hr, hrate⟩ := schedule_loop_rate m revs (prepayments_by_month preps) hvar2
      hs hne _ _ _ 0 (Nat.zero_le _) e he
    rw [latestOrFirstRate_eq hs hne, hr, hrate]
    rfl

/-- C1 witness: the amended rate selection at the concrete Variable loan,
checked on the first schedule month (which precedes the revision's
effective date and receives the revision's rate 3). -/
theorem C1_rate_selection_witness :
    loanVar.mortgage_type = "Variable" ∧
    ([revFeb].Pairwise (fun a b => dateLE a.effective_date b.effective_date)) ∧
    ∀ e ∈ generate_amortization_schedule todayD loanVar [revFeb] [],
      some e.annual_rate = latestOrFirstRate [revFeb] (periodStartDate e.month) :=
  ⟨rfl, by simp,
    C1_rate_selection todayD loanVar [revFeb] [] rfl (by simp) (by simp)⟩
